import Mathlib

/-
  Verification of the diagonal-Gaussian distribution utilities and the PPO
  model wrapper from `surreal/model/ppo_net.py`.

  A batch tensor of reals is embedded as a list of rows (`List (List ℝ)`);
  the per-row tensor arithmetic of the source (elementwise `-`, `/`, `pow`,
  `log`, and `sum(dim=1)`) is embedded with `List.zipWith`, `List.map` and
  `List.sum`.  The `DiagGauss` object carries only the action dimension `d`,
  so its methods are embedded as functions taking `d` first.
-/

open Real

namespace Surreal

/-! ## DiagGauss (from `ppo_net.py`, class `DiagGauss`) -/

namespace DiagGauss

/-- Row-level embedding of `DiagGauss.loglikelihood`: for one action row `a`
and one probability row `prob`, the source computes
`- 0.5 * (((a - mean0) / std0).pow(2)).sum(dim=1) - 0.5 * np.log(2.0 * np.pi) * self.d
 - std0.log().sum(dim=1)` with `mean0 = prob[:, :d]` and `std0 = prob[:, d:]`. -/
noncomputable def loglikelihoodRow (d : ℕ) (a prob : List ℝ) : ℝ :=
  let mean0 := prob.take d;
  let std0 := prob.drop d;
  -0.5 * (((List.zipWith (· / ·) (List.zipWith (· - ·) a mean0) std0).map (· ^ 2)).sum)
    - 0.5 * Real.log (2 * Real.pi) * d
    - (std0.map Real.log).sum

/-- Batch embedding of `DiagGauss.loglikelihood`: one value per sample row. -/
noncomputable def loglikelihood (d : ℕ) (a prob : List (List ℝ)) : List ℝ :=
  List.zipWith (loglikelihoodRow d) a prob

/-- Row-level embedding of `DiagGauss.likelihood`:
`torch.clamp(self.loglikelihood(a, prob).exp(), min=1e-5)`. -/
noncomputable def likelihoodRow (d : ℕ) (a prob : List ℝ) : ℝ :=
  max (Real.exp (loglikelihoodRow d a prob)) 1e-5

/-- Batch embedding of `DiagGauss.likelihood`. -/
noncomputable def likelihood (d : ℕ) (a prob : List (List ℝ)) : List ℝ :=
  List.zipWith (likelihoodRow d) a prob

/-- Row-level embedding of `DiagGauss.kl`: the source computes
`((std1 / std0).log()).sum(dim=1)
 + ((std0.pow(2) + (mean0 - mean1).pow(2)) / (2.0 * std1.pow(2))).sum(dim=1)
 - 0.5 * self.d`. -/
noncomputable def klRow (d : ℕ) (prob0 prob1 : List ℝ) : ℝ :=
  let mean0 := prob0.take d;
  let std0 := prob0.drop d;
  let mean1 := prob1.take d;
  let std1 := prob1.drop d;
  ((List.zipWith (· / ·) std1 std0).map Real.log).sum
    + (List.zipWith (· / ·)
        (List.zipWith (· + ·) (std0.map (· ^ 2))
          ((List.zipWith (· - ·) mean0 mean1).map (· ^ 2)))
        (std1.map (fun s => 2 * s ^ 2))).sum
    - 0.5 * d

/-- Batch embedding of `DiagGauss.kl`: one value per sample row. -/
noncomputable def kl (d : ℕ) (prob0 prob1 : List (List ℝ)) : List ℝ :=
  List.zipWith (klRow d) prob0 prob1

/-- Row-level embedding of `DiagGauss.entropy`: the source computes
`0.5 * std_nd.log().sum(dim=1) + .5 * np.log(2 * np.pi * np.e) * self.d`
with `std_nd = prob[:, d:]`. -/
noncomputable def entropyRow (d : ℕ) (prob : List ℝ) : ℝ :=
  let std_nd := prob.drop d;
  0.5 * (std_nd.map Real.log).sum + 0.5 * Real.log (2 * Real.pi * Real.exp 1) * d

/-- Batch embedding of `DiagGauss.entropy`. -/
noncomputable def entropy (d : ℕ) (prob : List (List ℝ)) : List ℝ :=
  prob.map (entropyRow d)

/-- Batch embedding of `DiagGauss.maxprob`: `prob[:, :self.d]`. -/
def maxprob (d : ℕ) (prob : List (List ℝ)) : List (List ℝ) :=
  prob.map (fun r => r.take d)

end DiagGauss

/-! ## Spec-side formulas

The following definitions transcribe the closed-form expressions stated in
the specification (one value per sample; `mean_i = prob[i]`,
`std_i = prob[d + i]` for `i < d`), written with indexed sums so that they
are independent of the list combinators used by the code embedding. -/

/-- Spec formula for the per-sample Gaussian log-density:
`-0.5 * sum_i ((a_i - mean_i)/std_i)^2 - 0.5 * d * log(2*pi) - sum_i log(std_i)`. -/
noncomputable def loglikelihoodSpecRow (d : ℕ) (a prob : List ℝ) : ℝ :=
  -0.5 * (∑ i ∈ Finset.range d, ((a.getD i 0 - prob.getD i 0) / prob.getD (d + i) 0) ^ 2)
    - 0.5 * (d : ℝ) * Real.log (2 * Real.pi)
    - ∑ i ∈ Finset.range d, Real.log (prob.getD (d + i) 0)

/-- Spec formula for the per-sample KL divergence between two diagonal
Gaussians, with `prob0` as the reference distribution:
`sum_i log(std1_i/std0_i) + sum_i (std0_i^2 + (mean0_i - mean1_i)^2)/(2*std1_i^2) - 0.5*d`. -/
noncomputable def klSpecRow (d : ℕ) (prob0 prob1 : List ℝ) : ℝ :=
  (∑ i ∈ Finset.range d, Real.log (prob1.getD (d + i) 0 / prob0.getD (d + i) 0))
    + (∑ i ∈ Finset.range d,
        (prob0.getD (d + i) 0 ^ 2 + (prob0.getD i 0 - prob1.getD i 0) ^ 2)
          / (2 * prob1.getD (d + i) 0 ^ 2))
    - 0.5 * (d : ℝ)

/-- Spec formula for the per-sample differential entropy of a diagonal
Gaussian: `sum_i log(std_i) + 0.5 * d * log(2*pi*e)`. -/
noncomputable def entropySpecRow (d : ℕ) (prob : List ℝ) : ℝ :=
  (∑ i ∈ Finset.range d, Real.log (prob.getD (d + i) 0))
    + 0.5 * (d : ℝ) * Real.log (2 * Real.pi * Real.exp 1)

/-- Batch version of the spec entropy formula: one value per sample row. -/
noncomputable def entropySpec (d : ℕ) (prob : List (List ℝ)) : List ℝ :=
  prob.map (entropySpecRow d)

/-! ## PPOModel (from `ppo_net.py`, class `PPOModel`)

A tensor is embedded as its size (`shape`, as returned by `obs.size()`)
together with its entries grouped into rows.  The actor and critic networks
(`PPO_ActorNetwork` / `PPO_CriticNetwork`, built by `model_builders`, which
is not among the sources) are kept abstract as function-valued fields of the
model; the claims under verification constrain only the control flow around
them, never their outputs. -/

/-- A real tensor: its size and its entries grouped into rows. -/
structure Tensor where
  shape : List ℕ
  rows : List (List ℝ)

/-- Modelled from the spec: `z_filter.py` is not among the sources.  The
spec describes the z-filter as a running-statistics-based observation
normalizer (subtract mean, divide by standard deviation) updated online
from observed data, owning a running mean/variance estimator over
observation dimensions.  We model its state as an observation count plus
per-dimension running sums and sums of squares. -/
structure ZFilter where
  count : ℕ
  sum : List ℝ
  sumsq : List ℝ

namespace ZFilter

/-- Modelled from the spec: a freshly constructed z-filter has seen no data. -/
def init (obs_dim : ℕ) : ZFilter :=
  { count := 0
    sum := List.replicate obs_dim 0
    sumsq := List.replicate obs_dim 0 }

/-- Modelled from the spec: per-dimension running mean. -/
noncomputable def mean (zf : ZFilter) : List ℝ :=
  zf.sum.map (· / (zf.count : ℝ))

/-- Modelled from the spec: per-dimension running standard deviation. -/
noncomputable def std (zf : ZFilter) : List ℝ :=
  List.zipWith (fun q m => Real.sqrt (q / (zf.count : ℝ) - m ^ 2)) zf.sumsq zf.mean

/-- Modelled from the spec: normalize each observation row by subtracting
the running mean and dividing by the running standard deviation. -/
noncomputable def forward (zf : ZFilter) (obs : Tensor) : Tensor :=
  { obs with
    rows := obs.rows.map (fun r =>
      List.zipWith (· / ·) (List.zipWith (· - ·) r zf.mean) zf.std) }

/-- Modelled from the spec: fold a batch of observation rows into the
running statistics. -/
noncomputable def z_update (zf : ZFilter) (obs : Tensor) : ZFilter :=
  { count := zf.count + obs.rows.length
    sum := obs.rows.foldl (fun acc r => List.zipWith (· + ·) acc r) zf.sum
    sumsq := obs.rows.foldl (fun acc r =>
      List.zipWith (· + ·) acc (r.map (· ^ 2))) zf.sumsq }

end ZFilter

/-- Embedding of the `PPOModel` state: the hyperparameter fields stored by
`__init__`, the actor and critic networks as abstract functions, and the
optional z-filter (the Python object only has a `z_filter` attribute when
`use_z_filter` was set, hence the `Option`). -/
structure PPOModel where
  obs_dim : ℕ
  action_dim : ℕ
  use_z_filter : Bool
  init_log_sig : ℝ
  actor : Tensor → Tensor
  critic : Tensor → Tensor
  z_filter : Option ZFilter

namespace PPOModel

/-- Embedding of `PPOModel.__init__`: stores the hyperparameters, installs
the freshly built actor and critic networks (taken as parameters, since the
network builders are not among the sources), and creates the z-filter only
when `use_z_filter` is set.  `use_cuda` is only forwarded to the z-filter
device placement and has no behavioral content here. -/
def init (init_log_sig : ℝ) (obs_dim action_dim : ℕ) (use_z_filter : Bool)
    (_use_cuda : Bool) (actorNet criticNet : Tensor → Tensor) : PPOModel :=
  { obs_dim := obs_dim
    action_dim := action_dim
    use_z_filter := use_z_filter
    init_log_sig := init_log_sig
    actor := actorNet
    critic := criticNet
    z_filter := if use_z_filter then some (ZFilter.init obs_dim) else none }

/-- A model state reachable from `__init__`: the `z_filter` attribute
exists exactly when `use_z_filter` was set. -/
def WellFormed (m : PPOModel) : Prop :=
  m.z_filter.isSome = m.use_z_filter

/-- Embedding of `PPOModel.update_target_params`: loads the actor and
critic state dicts of `net` into this model. -/
def update_target_params (m net : PPOModel) : PPOModel :=
  { m with actor := net.actor, critic := net.critic }

/-- Embedding of `PPOModel.update_target_z_filter`: when `use_z_filter` is
set, loads the state dict of `net.z_filter` into `m.z_filter` (a missing
attribute on either side is a Python `AttributeError`); otherwise does
nothing. -/
def update_target_z_filter (m net : PPOModel) : Except String PPOModel :=
  if m.use_z_filter then
    match m.z_filter, net.z_filter with
    | some _, some zf => .ok { m with z_filter := some zf }
    | _, _ => .error "AttributeError"
  else .ok m

/-- Embedding of `PPOModel.forward_actor`: asserts that the observation
batch is 2-dimensional with second dimension `obs_dim`, optionally
normalizes through the z-filter, then delegates to the actor network. -/
noncomputable def forward_actor (m : PPOModel) (obs : Tensor) : Except String Tensor :=
  if obs.shape.length = 2 ∧ obs.shape.getD 1 0 = m.obs_dim then
    if m.use_z_filter then
      match m.z_filter with
      | some zf => .ok (m.actor (zf.forward obs))
      | none => .error "AttributeError"
    else .ok (m.actor obs)
  else .error "AssertionError"

/-- Embedding of `PPOModel.forward_critic`: same shape assertion and
optional normalization, delegating to the critic network. -/
noncomputable def forward_critic (m : PPOModel) (obs : Tensor) : Except String Tensor :=
  if obs.shape.length = 2 ∧ obs.shape.getD 1 0 = m.obs_dim then
    if m.use_z_filter then
      match m.z_filter with
      | some zf => .ok (m.critic (zf.forward obs))
      | none => .error "AttributeError"
    else .ok (m.critic obs)
  else .error "AssertionError"

/-- The observation actually fed to the underlying network by the forward
passes: z-filtered when `use_z_filter` is set, raw otherwise. -/
noncomputable def normObs (m : PPOModel) (obs : Tensor) : Tensor :=
  if m.use_z_filter then
    match m.z_filter with
    | some zf => zf.forward obs
    | none => obs
  else obs

/-- Embedding of `PPOModel.z_update`: when `use_z_filter` is set, folds the
batch into the z-filter statistics; otherwise raises a `ValueError`.  The
first component is the call outcome, the second the model state after the
call. -/
noncomputable def z_update (m : PPOModel) (obs : Tensor) :
    Except String Unit × PPOModel :=
  if m.use_z_filter then
    match m.z_filter with
    | some zf => (.ok (), { m with z_filter := some (zf.z_update obs) })
    | none => (.error "AttributeError", m)
  else (.error "ValueError: Z_update called when network is set to not use z_filter", m)

end PPOModel

/-! ## Helper lemmas -/

/-- A list sum as an indexed sum over positions. -/
lemma sum_eq_range_getD (l : List ℝ) :
    l.sum = ∑ i ∈ Finset.range l.length, l.getD i 0 := by
  induction l with
  | nil => simp
  | cons x xs ih =>
    rw [List.sum_cons, List.length_cons, Finset.sum_range_succ']
    simp [ih, add_comm]

/-- Congruence for `zipWith` under pointwise agreement on members. -/
lemma zipWith_congr_mem {α β γ : Type*} (f g : α → β → γ) :
    ∀ (l1 : List α) (l2 : List β), (∀ x ∈ l1, ∀ y ∈ l2, f x y = g x y) →
      List.zipWith f l1 l2 = List.zipWith g l1 l2 := by
  intro l1
  induction l1 with
  | nil => intro l2 _; rfl
  | cons x xs ih =>
    intro l2 h
    cases l2 with
    | nil => rfl
    | cons y ys =>
      rw [List.zipWith_cons_cons, List.zipWith_cons_cons, h x (by simp) y (by simp),
        ih ys (fun u hu v hv => h u (by simp [hu]) v (by simp [hv]))]

/-- Every member of a `zipWith` is a value of the zipped function. -/
lemma exists_of_mem_zipWith {α β γ : Type*} (f : α → β → γ) :
    ∀ (l1 : List α) (l2 : List β) (c : γ), c ∈ List.zipWith f l1 l2 →
      ∃ x y, c = f x y := by
  intro l1
  induction l1 with
  | nil => intro l2 c hc; simp at hc
  | cons x xs ih =>
    intro l2 c hc
    cases l2 with
    | nil => simp at hc
    | cons y ys =>
      rw [List.zipWith_cons_cons, List.mem_cons] at hc
      rcases hc with h | h
      · exact ⟨x, y, h⟩
      · exact ih ys c h

/-- Row-level form of claim C2: the code expression for the log-likelihood
equals the closed-form density formula of the spec. -/
lemma loglikelihoodRow_eq_spec (d : ℕ) (a prob : List ℝ)
    (ha : a.length = d) (hp : prob.length = 2 * d) :
    DiagGauss.loglikelihoodRow d a prob = loglikelihoodSpecRow d a prob := by
  simp only [DiagGauss.loglikelihoodRow, loglikelihoodSpecRow]
  have h1 : (((List.zipWith (· / ·) (List.zipWith (· - ·) a (prob.take d)) (prob.drop d)).map
      (· ^ 2)).sum)
      = ∑ i ∈ Finset.range d, ((a.getD i 0 - prob.getD i 0) / prob.getD (d + i) 0) ^ 2 := by
    rw [sum_eq_range_getD]
    have hlen : ((List.zipWith (· / ·) (List.zipWith (· - ·) a (prob.take d)) (prob.drop d)).map
        (· ^ 2)).length = d := by
      simp [List.length_zipWith, ha, hp, List.length_take, List.length_drop]
      omega
    rw [hlen]
    refine Finset.sum_congr rfl (fun i hi => ?_)
    have hi' : i < d := Finset.mem_range.mp hi
    rw [List.getD_eq_getElem, List.getElem_map, List.getElem_zipWith, List.getElem_zipWith,
      List.getElem_take, List.getElem_drop,
      List.getD_eq_getElem a 0 (by omega), List.getD_eq_getElem prob 0 (by omega),
      List.getD_eq_getElem prob 0 (by omega)]
    rw [hlen]; exact hi'
  have h2 : ((prob.drop d).map Real.log).sum
      = ∑ i ∈ Finset.range d, Real.log (prob.getD (d + i) 0) := by
    rw [sum_eq_range_getD]
    have hlen : ((prob.drop d).map Real.log).length = d := by
      simp [List.length_drop, hp]
      omega
    rw [hlen]
    refine Finset.sum_congr rfl (fun i hi => ?_)
    have hi' : i < d := Finset.mem_range.mp hi
    rw [List.getD_eq_getElem, List.getElem_map, List.getElem_drop,
      List.getD_eq_getElem prob 0 (by omega)]
    rw [hlen]; exact hi'
  rw [h1, h2]
  ring

/-! ## Claims -/

/-- C2: for every action batch `a` and probability batch `prob` with `d`
action columns (and `2d` probability columns), `DiagGauss.loglikelihood`
returns, per sample row, the closed-form diagonal-Gaussian log-density
`-0.5 * sum_i ((a_i - mean_i)/std_i)^2 - 0.5 * d * log(2*pi) - sum_i log(std_i)`. -/
theorem loglikelihood_matches_spec (d : ℕ) (a prob : List (List ℝ))
    (ha : ∀ r ∈ a, r.length = d) (hp : ∀ r ∈ prob, r.length = 2 * d) :
    DiagGauss.loglikelihood d a prob = List.zipWith (loglikelihoodSpecRow d) a prob := by
  unfold DiagGauss.loglikelihood
  exact zipWith_congr_mem _ _ a prob
    (fun x hx y hy => loglikelihoodRow_eq_spec d x y (ha x hx) (hp y hy))

/-- Witness for C2 at `d = 1`, `a = [[1]]`, `prob = [[0, 2]]`. -/
theorem loglikelihood_matches_spec_witness :
    DiagGauss.loglikelihood 1 [[1]] [[0, 2]]
      = List.zipWith (loglikelihoodSpecRow 1) [[1]] [[0, 2]] :=
  loglikelihood_matches_spec 1 [[1]] [[0, 2]] (by simp) (by simp)

/-- Row-level form of claim C3: the code expression for the KL divergence
equals the closed-form formula of the spec. -/
lemma klRow_eq_spec (d : ℕ) (p0 p1 : List ℝ)
    (h0 : p0.length = 2 * d) (h1 : p1.length = 2 * d) :
    DiagGauss.klRow d p0 p1 = klSpecRow d p0 p1 := by
  simp only [DiagGauss.klRow, klSpecRow]
  have hA : ((List.zipWith (· / ·) (p1.drop d) (p0.drop d)).map Real.log).sum
      = ∑ i ∈ Finset.range d, Real.log (p1.getD (d + i) 0 / p0.getD (d + i) 0) := by
    rw [sum_eq_range_getD]
    have hlen : ((List.zipWith (· / ·) (p1.drop d) (p0.drop d)).map Real.log).length = d := by
      simp [List.length_zipWith, List.length_drop, h0, h1]
      omega
    rw [hlen]
    refine Finset.sum_congr rfl (fun i hi => ?_)
    have hi' : i < d := Finset.mem_range.mp hi
    rw [List.getD_eq_getElem]
    case hn => rw [hlen]; exact hi'
    simp only [List.getElem_map, List.getElem_zipWith, List.getElem_drop]
    rw [List.getD_eq_getElem p1 0 (by omega), List.getD_eq_getElem p0 0 (by omega)]
  have hB : (List.zipWith (· / ·)
        (List.zipWith (· + ·) ((p0.drop d).map (· ^ 2))
          ((List.zipWith (· - ·) (p0.take d) (p1.take d)).map (· ^ 2)))
        ((p1.drop d).map (fun s => 2 * s ^ 2))).sum
      = ∑ i ∈ Finset.range d,
          (p0.getD (d + i) 0 ^ 2 + (p0.getD i 0 - p1.getD i 0) ^ 2)
            / (2 * p1.getD (d + i) 0 ^ 2) := by
    rw [sum_eq_range_getD]
    have hlen : (List.zipWith (· / ·)
        (List.zipWith (· + ·) ((p0.drop d).map (· ^ 2))
          ((List.zipWith (· - ·) (p0.take d) (p1.take d)).map (· ^ 2)))
        ((p1.drop d).map (fun s => 2 * s ^ 2))).length = d := by
      simp [List.length_zipWith, List.length_map, List.length_take, List.length_drop, h0, h1]
      omega
    rw [hlen]
    refine Finset.sum_congr rfl (fun i hi => ?_)
    have hi' : i < d := Finset.mem_range.mp hi
    rw [List.getD_eq_getElem]
    case hn => rw [hlen]; exact hi'
    simp only [List.getElem_zipWith, List.getElem_map, List.getElem_take, List.getElem_drop]
    rw [List.getD_eq_getElem p0 0 (by omega), List.getD_eq_getElem p0 0 (by omega),
      List.getD_eq_getElem p1 0 (by omega), List.getD_eq_getElem p1 0 (by omega)]
  rw [hA, hB]

/-- C3: for every pair of probability batches with `2d` columns per row,
`DiagGauss.kl` returns, per sample row, the closed-form KL divergence
between the two diagonal Gaussians with `prob0` as the reference:
`sum_i log(std1_i/std0_i) + sum_i (std0_i^2 + (mean0_i - mean1_i)^2)/(2*std1_i^2) - 0.5*d`. -/
theorem kl_matches_spec (d : ℕ) (prob0 prob1 : List (List ℝ))
    (h0 : ∀ r ∈ prob0, r.length = 2 * d) (h1 : ∀ r ∈ prob1, r.length = 2 * d) :
    DiagGauss.kl d prob0 prob1 = List.zipWith (klSpecRow d) prob0 prob1 := by
  unfold DiagGauss.kl
  exact zipWith_congr_mem _ _ prob0 prob1
    (fun x hx y hy => klRow_eq_spec d x y (h0 x hx) (h1 y hy))

/-- Witness for C3 at `d = 1`, `prob0 = [[0, 1]]`, `prob1 = [[3, 2]]`. -/
theorem kl_matches_spec_witness :
    DiagGauss.kl 1 [[0, 1]] [[3, 2]]
      = List.zipWith (klSpecRow 1) [[0, 1]] [[3, 2]] :=
  kl_matches_spec 1 [[0, 1]] [[3, 2]] (by simp) (by simp)

/-- C1: on the probability batch with one row `[0, e]` (mean `0`, standard
deviation `e`, `d = 1`), the code returns `0.5 + 0.5*log(2*pi*e)` while the
claimed closed-form differential entropy is `1 + 0.5*log(2*pi*e)`; the two
disagree, because the code multiplies the log-std sum by an extra `0.5`. -/
theorem entropy_deviates_from_closed_form :
    DiagGauss.entropy 1 [[0, Real.exp 1]]
        = [0.5 + 0.5 * Real.log (2 * Real.pi * Real.exp 1)]
      ∧ entropySpec 1 [[0, Real.exp 1]]
        = [1 + 0.5 * Real.log (2 * Real.pi * Real.exp 1)]
      ∧ DiagGauss.entropy 1 [[0, Real.exp 1]] ≠ entropySpec 1 [[0, Real.exp 1]] := by
  have hc : DiagGauss.entropy 1 [[0, Real.exp 1]]
      = [0.5 + 0.5 * Real.log (2 * Real.pi * Real.exp 1)] := by
    simp [DiagGauss.entropy, DiagGauss.entropyRow, Real.log_exp]
  have hs : entropySpec 1 [[0, Real.exp 1]]
      = [1 + 0.5 * Real.log (2 * Real.pi * Real.exp 1)] := by
    simp [entropySpec, entropySpecRow, Real.log_exp]
  refine ⟨hc, hs, ?_⟩
  rw [hc, hs]
  intro h
  simp only [List.cons.injEq, and_true] at h
  linarith

/-- Zipping a list with itself is a map along the diagonal. -/
lemma zipWith_self {α β : Type*} (f : α → α → β) :
    ∀ l : List α, List.zipWith f l l = l.map (fun x => f x x) := by
  intro l
  induction l with
  | nil => rfl
  | cons x xs ih => rw [List.zipWith_cons_cons, List.map_cons, ih]

/-- The middle KL summand degenerates to `1/2` on identical parameters. -/
lemma div_self_half (s m : ℝ) (hs : s ≠ 0) :
    (s ^ 2 + (m - m) ^ 2) / (2 * s ^ 2) = 1 / 2 := by
  rw [sub_self]
  field_simp
  ring

/-- Row-level identity law: the code KL of a row against itself is zero as
soon as its std segment is nonzero. -/
lemma klRow_self_eq_zero (d : ℕ) (r : List ℝ) (hr : r.length = 2 * d)
    (hpos : ∀ x ∈ r.drop d, 0 < x) :
    DiagGauss.klRow d r r = 0 := by
  simp only [DiagGauss.klRow]
  have hA : ((List.zipWith (· / ·) (r.drop d) (r.drop d)).map Real.log).sum = 0 := by
    rw [sum_eq_range_getD]
    apply Finset.sum_eq_zero
    intro i hi
    have hiL : i < ((List.zipWith (· / ·) (r.drop d) (r.drop d)).map Real.log).length :=
      Finset.mem_range.mp hi
    rw [List.getD_eq_getElem _ _ hiL]
    simp only [List.getElem_map, List.getElem_zipWith]
    rw [div_self (ne_of_gt (hpos _ (List.getElem_mem _))), Real.log_one]
  have hB : (List.zipWith (· / ·)
        (List.zipWith (· + ·) ((r.drop d).map (· ^ 2))
          ((List.zipWith (· - ·) (r.take d) (r.take d)).map (· ^ 2)))
        ((r.drop d).map (fun s => 2 * s ^ 2))).sum = (d : ℝ) * (1 / 2) := by
    rw [sum_eq_range_getD]
    have hlen : (List.zipWith (· / ·)
        (List.zipWith (· + ·) ((r.drop d).map (· ^ 2))
          ((List.zipWith (· - ·) (r.take d) (r.take d)).map (· ^ 2)))
        ((r.drop d).map (fun s => 2 * s ^ 2))).length = d := by
      simp [List.length_zipWith, List.length_map, List.length_take, List.length_drop, hr]
      omega
    rw [hlen]
    have hpt : ∀ i ∈ Finset.range d, (List.zipWith (· / ·)
        (List.zipWith (· + ·) ((r.drop d).map (· ^ 2))
          ((List.zipWith (· - ·) (r.take d) (r.take d)).map (· ^ 2)))
        ((r.drop d).map (fun s => 2 * s ^ 2))).getD i 0 = 1 / 2 := by
      intro i hi
      have hi' : i < d := Finset.mem_range.mp hi
      rw [List.getD_eq_getElem _ _ (by rw [hlen]; exact hi')]
      simp only [List.getElem_zipWith, List.getElem_map]
      exact div_self_half _ _ (ne_of_gt (hpos _ (List.getElem_mem _)))
    rw [Finset.sum_congr rfl hpt]
    simp [Finset.sum_const, Finset.card_range, nsmul_eq_mul]
  rw [hA, hB]
  ring

/-- C4: the code KL satisfies the identity law (every row of
`kl(prob, prob)` is zero for strictly positive std segments), and it is
asymmetric in general: at `prob0 = [[0, 1]]`, `prob1 = [[0, 2]]` the two
orders disagree. -/
theorem kl_identity_and_asymmetry :
    (∀ (d : ℕ) (prob : List (List ℝ)), (∀ r ∈ prob, r.length = 2 * d) →
      (∀ r ∈ prob, ∀ x ∈ r.drop d, 0 < x) →
      ∀ y ∈ DiagGauss.kl d prob prob, y = 0)
    ∧ DiagGauss.kl 1 [[0, 1]] [[0, 2]] ≠ DiagGauss.kl 1 [[0, 2]] [[0, 1]] := by
  constructor
  · intro d prob hlen hpos y hy
    unfold DiagGauss.kl at hy
    rw [zipWith_self] at hy
    obtain ⟨r, hr, rfl⟩ := List.mem_map.mp hy
    exact klRow_self_eq_zero d r (hlen r hr) (hpos r hr)
  · intro h
    simp [DiagGauss.kl, DiagGauss.klRow] at h
    norm_num at h
    linarith [Real.log_two_lt_d9]

/-- Witness for C4 at `d = 1`, `prob = [[3, 2]]`. -/
theorem kl_identity_witness :
    ∀ y ∈ DiagGauss.kl 1 [[3, 2]] [[3, 2]], y = 0 :=
  kl_identity_and_asymmetry.1 1 [[3, 2]] (by simp) (by norm_num)

/-- C5: the code likelihood is the exponentiated log-likelihood clamped
below at `1e-5`, hence every returned value is at least `1e-5` and nonzero. -/
theorem likelihood_clamped (d : ℕ) (a prob : List (List ℝ)) :
    DiagGauss.likelihood d a prob
      = List.zipWith (fun ar pr =>
          max (Real.exp (DiagGauss.loglikelihoodRow d ar pr)) 1e-5) a prob
    ∧ ∀ y ∈ DiagGauss.likelihood d a prob, 1e-5 ≤ y ∧ y ≠ 0 := by
  constructor
  · rfl
  · intro y hy
    simp only [DiagGauss.likelihood] at hy
    obtain ⟨u, v, rfl⟩ := exists_of_mem_zipWith _ a prob y hy
    refine ⟨le_max_right _ _, ne_of_gt ?_⟩
    exact lt_of_lt_of_le (by norm_num) (le_max_right _ _)

/-- Witness for C5 at `d = 1`, `a = [[0]]`, `prob = [[0, 1]]`. -/
theorem likelihood_clamped_witness :
    (1e-5 : ℝ) ≤ DiagGauss.likelihoodRow 1 [0] [0, 1]
      ∧ DiagGauss.likelihoodRow 1 [0] [0, 1] ≠ 0 :=
  (likelihood_clamped 1 [[0]] [[0, 1]]).2 _ (by simp [DiagGauss.likelihood])

/-- C6: `maxprob` returns exactly the mean segment (first `d` columns) of
each row, and its output depends only on those columns: two batches
agreeing on the mean segment yield the same result. -/
theorem maxprob_mean_segment (d : ℕ) (prob prob1 prob2 : List (List ℝ)) :
    DiagGauss.maxprob d prob = prob.map (fun r => r.take d)
    ∧ (prob1.map (fun r => r.take d) = prob2.map (fun r => r.take d) →
        DiagGauss.maxprob d prob1 = DiagGauss.maxprob d prob2) :=
  ⟨rfl, fun h => h⟩

/-- Witness for C6: two batches with different std columns but the same
mean column have the same `maxprob`. -/
theorem maxprob_mean_segment_witness :
    DiagGauss.maxprob 1 [[1, 2]] = DiagGauss.maxprob 1 [[1, 3]] :=
  (maxprob_mean_segment 1 [] [[1, 2]] [[1, 3]]).2 rfl

/-- C7: on a model reachable from `__init__`, both forward passes fail the
assertion exactly when the observation is not 2-dimensional with second
dimension `obs_dim`; under the shape precondition they return the underlying
network applied to the (optionally z-filtered) observation. -/
theorem forward_shape_assertion (m : PPOModel) (obs : Tensor)
    (hm : PPOModel.WellFormed m) :
    (¬ (obs.shape.length = 2 ∧ obs.shape.getD 1 0 = m.obs_dim) →
      PPOModel.forward_actor m obs = .error "AssertionError"
      ∧ PPOModel.forward_critic m obs = .error "AssertionError")
    ∧ ((obs.shape.length = 2 ∧ obs.shape.getD 1 0 = m.obs_dim) →
      PPOModel.forward_actor m obs = .ok (m.actor (PPOModel.normObs m obs))
      ∧ PPOModel.forward_critic m obs = .ok (m.critic (PPOModel.normObs m obs))) := by
  constructor
  · intro h
    constructor
    · unfold PPOModel.forward_actor
      rw [if_neg h]
    · unfold PPOModel.forward_critic
      rw [if_neg h]
  · intro h
    unfold PPOModel.WellFormed at hm
    cases hzf : m.z_filter with
    | some zf =>
      have hz : m.use_z_filter = true := by rw [← hm, hzf]; rfl
      constructor
      · unfold PPOModel.forward_actor
        rw [if_pos h]
        simp [PPOModel.normObs, hz, hzf]
      · unfold PPOModel.forward_critic
        rw [if_pos h]
        simp [PPOModel.normObs, hz, hzf]
    | none =>
      have hz : m.use_z_filter = false := by rw [← hm, hzf]; rfl
      constructor
      · unfold PPOModel.forward_actor
        rw [if_pos h]
        simp [PPOModel.normObs, hz, hzf]
      · unfold PPOModel.forward_critic
        rw [if_pos h]
        simp [PPOModel.normObs, hz, hzf]

/-- Witness for C7: a well-shaped observation passes the assertion and is
delegated (here, to identity networks without a z-filter). -/
theorem forward_shape_assertion_witness :
    PPOModel.forward_actor ⟨1, 1, false, 0, fun t => t, fun t => t, none⟩ ⟨[1, 1], [[0]]⟩
      = .ok ⟨[1, 1], [[0]]⟩ :=
  ((forward_shape_assertion ⟨1, 1, false, 0, fun t => t, fun t => t, none⟩
    ⟨[1, 1], [[0]]⟩ rfl).2 ⟨rfl, rfl⟩).1

/-- C8: on a model reachable from `__init__`, `z_update` raises the
`ValueError` exactly when `use_z_filter` is off, leaving the model
unchanged; with `use_z_filter` on it succeeds and folds the batch into the
z-filter statistics. -/
theorem z_update_value_error_iff (m : PPOModel) (obs : Tensor)
    (hm : PPOModel.WellFormed m) :
    (m.use_z_filter = true →
      PPOModel.z_update m obs
        = (.ok (), { m with z_filter := m.z_filter.map (fun zf => zf.z_update obs) }))
    ∧ (m.use_z_filter = false →
      PPOModel.z_update m obs
        = (.error "ValueError: Z_update called when network is set to not use z_filter", m)) := by
  constructor
  · intro hz
    unfold PPOModel.WellFormed at hm
    cases hzf : m.z_filter with
    | some zf => simp [PPOModel.z_update, hz, hzf]
    | none => rw [hzf] at hm; rw [hz] at hm; cases hm
  · intro hz
    simp [PPOModel.z_update, hz]

/-- Witness for C8: with `use_z_filter` off, `z_update` raises the
`ValueError` and the state is untouched. -/
theorem z_update_value_error_iff_witness :
    PPOModel.z_update ⟨1, 1, false, 0, fun t => t, fun t => t, none⟩ ⟨[1, 1], [[0]]⟩
      = (.error "ValueError: Z_update called when network is set to not use z_filter",
          ⟨1, 1, false, 0, fun t => t, fun t => t, none⟩) :=
  (z_update_value_error_iff ⟨1, 1, false, 0, fun t => t, fun t => t, none⟩
    ⟨[1, 1], [[0]]⟩ rfl).2 rfl

/-- C9: on models reachable from `__init__`, `update_target_z_filter`
copies the z-filter statistics from `net` exactly when this model has
`use_z_filter` on; with it off the call is a no-op returning the model
unchanged and raising nothing. -/
theorem update_target_z_filter_copies_iff (m net : PPOModel)
    (hm : PPOModel.WellFormed m) (hnet : PPOModel.WellFormed net) :
    (m.use_z_filter = true → net.use_z_filter = true →
      PPOModel.update_target_z_filter m net = .ok { m with z_filter := net.z_filter })
    ∧ (m.use_z_filter = false →
      PPOModel.update_target_z_filter m net = .ok m) := by
  constructor
  · intro hz hz2
    unfold PPOModel.WellFormed at hm hnet
    cases hzf : m.z_filter with
    | none => rw [hzf] at hm; rw [hz] at hm; cases hm
    | some zf =>
      cases hzf2 : net.z_filter with
      | none => rw [hzf2] at hnet; rw [hz2] at hnet; cases hnet
      | some zf2 => simp [PPOModel.update_target_z_filter, hz, hzf, hzf2]
  · intro hz
    simp [PPOModel.update_target_z_filter, hz]

/-- Witness for C9: with both models using z-filters, the statistics are
copied over from `net`. -/
theorem update_target_z_filter_copies_iff_witness :
    PPOModel.update_target_z_filter
        ⟨1, 1, true, 0, fun t => t, fun t => t, some (ZFilter.init 1)⟩
        ⟨1, 1, true, 0, fun t => t, fun t => t, some ⟨5, [2], [4]⟩⟩
      = .ok ⟨1, 1, true, 0, fun t => t, fun t => t, some ⟨5, [2], [4]⟩⟩ :=
  (update_target_z_filter_copies_iff
    ⟨1, 1, true, 0, fun t => t, fun t => t, some (ZFilter.init 1)⟩
    ⟨1, 1, true, 0, fun t => t, fun t => t, some ⟨5, [2], [4]⟩⟩ rfl rfl).1 rfl rfl

/-- C10: `update_target_params` installs the actor and critic of `net` and
changes nothing else: the z-filter state and the hyperparameter fields
`obs_dim`, `action_dim`, `use_z_filter`, `init_log_sig` are all preserved. -/
theorem update_target_params_frame (m net : PPOModel) :
    (PPOModel.update_target_params m net).actor = net.actor
    ∧ (PPOModel.update_target_params m net).critic = net.critic
    ∧ (PPOModel.update_target_params m net).z_filter = m.z_filter
    ∧ (PPOModel.update_target_params m net).obs_dim = m.obs_dim
    ∧ (PPOModel.update_target_params m net).action_dim = m.action_dim
    ∧ (PPOModel.update_target_params m net).use_z_filter = m.use_z_filter
    ∧ (PPOModel.update_target_params m net).init_log_sig = m.init_log_sig :=
  ⟨rfl, rfl, rfl, rfl, rfl, rfl, rfl⟩

end Surreal
